import Mathlib

/-!
Formal model of `src/AppImgMon.py` (AppImgMon): a watcher that keeps
`.desktop` launcher entries and extracted icons in sync with the AppImage
bundles present in a watched directory.

The filesystem is modelled as an association list from absolute path
(`String`) to `FileData` (content as a list of lines, an exact rational
modification time, and a permission mode).  File contents are modelled as
line lists; every read in the modelled code paths immediately splits the
content into lines (`splitlines`) or looks for newline-free substrings,
so the two representations agree.  The MD5 content digest is abstracted
as a parameter `md5 : List String → String` standing for
`hashlib.md5(bytes).hexdigest()`; the code's 8-character truncation is
kept explicit (`strTake 8 (md5 c)`).  `subprocess.run([appimage,
"--appimage-extract"])` is abstracted by a parameter `tree : FileSys` that
lists the files the self-extraction deposits below `squashfs-root/`
(empty when extraction produces no output).  Wall-clock `int(time.time())`
is a parameter `now : Int`.
-/

namespace AppImgMon

/-! ### Character-list primitives (models of the Python string operations) -/

/-- Model of `s.startswith(pat)` on character lists: `pat` is a prefix. -/
def listPre : List Char → List Char → Bool
  | [], _ => true
  | _ :: _, [] => false
  | a :: as, b :: bs => if a = b then listPre as bs else false

/-- Two lists disagree at some position common to both. -/
def clash : List Char → List Char → Bool
  | a :: as, b :: bs => if a = b then clash as bs else true
  | _, _ => false

/-- Model of Python's `pat in s` (substring containment). -/
def occursInAux (pat : List Char) : List Char → Bool
  | [] => listPre pat []
  | c :: cs => listPre pat (c :: cs) || occursInAux pat cs

def occursIn (pat s : String) : Bool := occursInAux pat.data s.data

/-- Model of `s.startswith(pat)`. -/
def strStarts (pat s : String) : Bool := listPre pat.data s.data

/-- Model of `s.endswith(pat)`. -/
def strEnds (pat s : String) : Bool := listPre pat.data.reverse s.data.reverse

/-- Model of `s.split(c)` (split on every occurrence of the character). -/
def splitCharData (c : Char) : List Char → List (List Char)
  | [] => [[]]
  | a :: rest =>
    let r := splitCharData c rest
    if a = c then [] :: r
    else
      match r with
      | [] => [[a]]
      | h :: t => (a :: h) :: t

def splitChar (c : Char) (s : String) : List String :=
  (splitCharData c s.data).map String.mk

/-- Element at index 1 (model of the subscript `[1]` on a split result
that is known to have at least two elements). -/
def idx1 : List String → String
  | _ :: v :: _ => v
  | _ => ""

/-- Everything after the first occurrence of `c`: model of `s.split(c, 1)[1]`
when `c` occurs in `s`. -/
def afterFirstData (c : Char) : List Char → List Char
  | [] => []
  | a :: rest => if a = c then rest else afterFirstData c rest

def afterFirst (c : Char) (s : String) : String := String.mk (afterFirstData c s.data)

/-- Model of Python `s.strip()` (whitespace trimmed from both ends). -/
def trimData (l : List Char) : List Char :=
  ((l.dropWhile Char.isWhitespace).reverse.dropWhile Char.isWhitespace).reverse

def trimStr (s : String) : String := String.mk (trimData s.data)

/-- Model of the slice `s[:n]`. -/
def strTake (n : Nat) (s : String) : String := String.mk (s.data.take n)

/-- Final path component (model of `Path(p).name`). -/
def baseNameData (l : List Char) : List Char :=
  (l.reverse.takeWhile (fun c => !(c = '/' : Bool))).reverse

def baseNameOf (s : String) : String := String.mk (baseNameData s.data)

/-- Everything before the final `/` (model of `Path(p).parent`, as a plain
string without trailing slash). -/
def parentData (l : List Char) : List Char :=
  ((l.reverse.dropWhile (fun c => !(c = '/' : Bool))).drop 1).reverse

def parentOf (s : String) : String := String.mk (parentData s.data)

/-- Model of `Path(name).stem` on a final component: the name without its
last suffix; a name without a dot, with a leading dot only, or with a
trailing dot keeps its full form (pathlib's `0 < i < len(name) - 1` rule). -/
def stemData (l : List Char) : List Char :=
  let r := l.reverse
  let pre := r.takeWhile (fun c => !(c = '.' : Bool))
  if pre.length = r.length then l
  else if pre.length = 0 then l
  else if pre.length + 1 = r.length then l
  else (r.drop (pre.length + 1)).reverse

/-- `Path(p).stem`: stem of the final component. -/
def stemOf (s : String) : String := String.mk (stemData (baseNameData s.data))

/-! ### Decimal rendering and parsing (models of `f"{int}"` and `float(str)`) -/

/-- Numeric value of a digit string (used only on all-digit lists). -/
def natVal (l : List Char) : Nat := l.foldl (fun n c => n * 10 + (c.toNat - 48)) 0

/-- Fuelled decimal rendering of a natural number (fuel `n + 1` suffices). -/
def natDigitsAux : Nat → Nat → List Char
  | 0, _ => []
  | fuel + 1, n =>
    if n < 10 then [Char.ofNat (48 + n)]
    else natDigitsAux fuel (n / 10) ++ [Char.ofNat (48 + n % 10)]

def natDigits (n : Nat) : List Char := natDigitsAux (n + 1) n

/-- Model of Python `str(i)` / `f"{i}"` for an `int`. -/
def intToStr : Int → String
  | Int.ofNat n => String.mk (natDigits n)
  | Int.negSucc m => String.mk ('-' :: natDigits (m + 1))

/-- Strip one leading sign character; `true` means negative. -/
def stripSign (l : List Char) : Bool × List Char :=
  match l with
  | [] => (false, [])
  | c :: r =>
    if c = '-' then (true, r)
    else if c = '+' then (false, r) else (false, c :: r)

def digitsOnly (l : List Char) : Bool := l.all Char.isDigit

/-- Model of Python `float(s)` restricted to finite decimal literals
(optional sign, digits, optional fractional part); `none` models a
`ValueError`.  `inf` / `nan` / exponent forms are outside the model. -/
def pyFloat? (s : String) : Option Rat :=
  let l := trimData s.data
  let sd := stripSign l
  match splitCharData '.' sd.2 with
  | [a] =>
    if !a.isEmpty && digitsOnly a then
      some (if sd.1 then -(natVal a : Rat) else (natVal a : Rat))
    else none
  | [a, b] =>
    if (!a.isEmpty || !b.isEmpty) && digitsOnly a && digitsOnly b then
      let v : Rat := (natVal a : Rat) + (natVal b : Rat) / (10 : Rat) ^ b.length
      some (if sd.1 then -v else v)
    else none
  | _ => none

/-! ### Filesystem model -/

/-- A regular file: content as lines, modification time, permission bits. -/
structure FileData where
  content : List String
  mtime : Rat
  mode : Nat
deriving DecidableEq, Repr

/-- The filesystem: association list from absolute path to file data.
The first binding for a path wins. -/
abbrev FileSys := List (String × FileData)

def readFS : FileSys → String → Option FileData
  | [], _ => none
  | e :: r, p => if e.1 = p then some e.2 else readFS r p

def existsFS (fs : FileSys) (p : String) : Bool := (readFS fs p).isSome

def unlinkFS : FileSys → String → FileSys
  | [], _ => []
  | e :: r, p => if e.1 = p then unlinkFS r p else e :: unlinkFS r p

def writeFS (fs : FileSys) (p : String) (d : FileData) : FileSys :=
  (p, d) :: unlinkFS fs p

def writeAllFS (fs : FileSys) (l : FileSys) : FileSys :=
  l.foldl (fun acc e => writeFS acc e.1 e.2) fs

def keysOf (fs : FileSys) : List String := fs.map Prod.fst

/-- Model of `Path(dir).glob("*" + ext)`: files directly inside `dir` whose
name has suffix `ext`; glob does not match hidden names. -/
def globExt (fs : FileSys) (dir ext : String) : List String :=
  (keysOf fs).filter
    (fun p => decide (parentOf p = dir) && strEnds ext (baseNameOf p)
      && !(strStarts "." (baseNameOf p)))

/-- `Path(p).exists()` for the scratch directory: the path itself or some
file below it is present. -/
def existsDirFS (fs : FileSys) (p : String) : Bool :=
  existsFS fs p || fs.any (fun e => strStarts (p ++ "/") e.1)

/-! ### Configuration (the module-level directory constants) -/

structure Config where
  watchDir : String
  desktopDir : String
  iconDir : String
  shortcutsDir : String
  createShortcuts : Bool

/-! ### `extract_icon` -/

def icon_formats : List String := [".png", ".svg", ".xpm", ".jpg", ".jpeg", ".ico"]

def icon_resolutions : List String :=
  ["512x512", "256x256", "128x128", "64x64", "48x48", "32x32"]

def base_locations (app_name : String) : List String :=
  [".",
   "usr/share/icons/hicolor/{resolution}/apps",
   "usr/share/icons/default/{resolution}/apps",
   "usr/share/icons",
   "usr/share/pixmaps",
   ".local/share/icons",
   "opt/" ++ app_name ++ "/icons",
   "AppRun"]

def common_icon_names : List String :=
  [".DirIcon", "icon.png", "icon.svg", "app.png", "app.svg", "application.png", "logo.png"]

def fallbackIcon : String := "application-x-executable"

def squashfs : String := "squashfs-root"

/-- Replace the first occurrence of `pat` (model of
`base_loc.format(resolution=res)`, whose placeholder occurs once). -/
def replaceOnce (pat rep : List Char) : List Char → List Char
  | [] => []
  | c :: rest =>
    if listPre pat (c :: rest) then rep ++ (c :: rest).drop pat.length
    else c :: replaceOnce pat rep rest

def formatResolution (loc res : String) : String :=
  String.mk (replaceOnce "{resolution}".data res.data loc.data)

/-- `Path(squashfs_root) / loc`: pathlib collapses a lone `.` component. -/
def locDir (loc : String) : String :=
  if loc = "." then squashfs else squashfs ++ "/" ++ loc

/-- The candidate paths `ICON_DIR/{app_name}{fmt}` checked before extraction. -/
def existingIconCands (cfg : Config) (app_name : String) : List String :=
  icon_formats.map (fun fmt => cfg.iconDir ++ "/" ++ app_name ++ fmt)

/-- The canonical icon target `ICON_DIR/{app_name}.png`. -/
def canonicalIcon (cfg : Config) (app_name : String) : String :=
  cfg.iconDir ++ "/" ++ app_name ++ ".png"

def firstExisting (fs : FileSys) (cands : List String) : Option String :=
  cands.find? (fun f => existsFS fs f)

/-- State threaded through the icon search: filesystem plus `icon_found`. -/
structure SearchSt where
  fs : FileSys
  found : Bool
deriving Repr

/-- Inner `for fmt in icon_formats` loop: the first existing
`{dir}/{app_name}{fmt}` is copied (`shutil.copy2`) over `icon_path` and
`icon_found` is set; note the loop runs regardless of a previous find. -/
def tryFormats (app_name dir icon_path : String) (st : SearchSt) : SearchSt :=
  match firstExisting st.fs (icon_formats.map (fun fmt => dir ++ "/" ++ app_name ++ fmt)) with
  | none => st
  | some src =>
    match readFS st.fs src with
    | none => st
    | some d => ⟨writeFS st.fs icon_path d, true⟩

/-- The `for res in icon_resolutions` loop.  Faithful to the source: it has
no `icon_found` break, so every resolution with a match copies again,
overwriting the previous copy. -/
def scanResLoc (app_name base_loc icon_path : String) (st : SearchSt) : SearchSt :=
  icon_resolutions.foldl
    (fun st res =>
      tryFormats app_name (squashfs ++ "/" ++ formatResolution base_loc res) icon_path st)
    st

/-- First search pass: app-named icons over `base_locations`, with the
`if icon_found: break` check at the head of each location. -/
def searchNamed (app_name icon_path : String) (st : SearchSt) : SearchSt :=
  (base_locations app_name).foldl
    (fun st loc =>
      if st.found then st
      else if occursIn "{resolution}" loc then scanResLoc app_name loc icon_path st
      else tryFormats app_name (locDir loc) icon_path st)
    st

/-- Inner loop of the second pass: first existing common icon name in `dir`. -/
def tryNames (dir icon_path : String) (st : SearchSt) : SearchSt :=
  match firstExisting st.fs (common_icon_names.map (fun n => dir ++ "/" ++ n)) with
  | none => st
  | some src =>
    match readFS st.fs src with
    | none => st
    | some d => ⟨writeFS st.fs icon_path d, true⟩

/-- Second search pass: common icon names, resolution locations skipped. -/
def searchCommon (app_name icon_path : String) (st : SearchSt) : SearchSt :=
  (base_locations app_name).foldl
    (fun st loc =>
      if st.found then st
      else if occursIn "{resolution}" loc then st
      else tryNames (locDir loc) icon_path st)
    st

/-- Both passes: named first, common names only when nothing was found. -/
def searchBoth (app_name icon_path : String) (fs : FileSys) : SearchSt :=
  let st1 := searchNamed app_name icon_path ⟨fs, false⟩
  if st1.found then st1 else searchCommon app_name icon_path st1

/-- The files the self-extraction would deposit, rebased under
`squashfs-root/`. -/
def scratchDeposit (tree : FileSys) : FileSys :=
  tree.map (fun e => (squashfs ++ "/" ++ e.1, e.2))

def scratchKey (k : String) : Bool := k = squashfs || strStarts (squashfs ++ "/") k

/-- The `finally` block: `shutil.rmtree("squashfs-root")` when present. -/
def removeScratch (fs : FileSys) : FileSys :=
  fs.filter (fun e => !scratchKey e.1)

/-- Model of `extract_icon(appimage_path, app_name)`.  The bundle argument
only feeds the extraction subprocess, which is abstracted by `tree` (the
files it deposits; empty means extraction produced no output).  Returns
the updated filesystem and the icon reference the function returns. -/
def extract_icon (cfg : Config) (tree : FileSys) (fs : FileSys) (app_name : String) :
    FileSys × String :=
  match firstExisting fs (existingIconCands cfg app_name) with
  | some p => (fs, p)
  | none =>
    let fs1 := writeAllFS fs (scratchDeposit tree)
    if !existsDirFS fs1 squashfs then (fs1, fallbackIcon)
    else
      let st := searchBoth app_name (canonicalIcon cfg app_name) fs1
      (removeScratch st.fs, if st.found then canonicalIcon cfg app_name else fallbackIcon)

/-! ### `validate_desktop_shortcut` and `create_desktop_file` -/

/-- Model of `validate_desktop_shortcut`: fixes permissions to `0o755`
and checks the four required substrings (newline-free, so substring
containment in the file is containment in some line). -/
def validate_desktop_shortcut (fs : FileSys) (p : String) : FileSys × Bool :=
  match readFS fs p with
  | none => (fs, false)
  | some d =>
    let fs1 := if d.mode = 0o755 then fs else writeFS fs p ⟨d.content, d.mtime, 0o755⟩
    (fs1,
      ["[Desktop Entry]", "Type=Application", "Exec=", "Icon="].all
        (fun k => d.content.any (fun line => occursIn k line)))

/-- The rendered `.desktop` entry, line by line. -/
def desktopLines (app p icon h : String) (now : Int) : List String :=
  ["[Desktop Entry]",
   "Type=Application",
   "Name=" ++ app,
   "Exec=\"" ++ (p ++ "\" %F"),
   "Icon=" ++ icon,
   "Terminal=false",
   "Comment=AppImage application",
   "Categories=Utility;",
   "MimeType=application/x-executable;",
   "X-AppImage-Version=1.0",
   "X-AppImage-Path=" ++ p,
   "X-AppImage-Hash=" ++ h,
   "X-AppImage-LastUpdate=" ++ intToStr now]

/-- Model of `create_desktop_file(appimage_path)`.  A failed bundle read
(`open(appimage_path, 'rb')` raising) is the `except` path: logged, no
write, the caller sees no exception.  Writes carry mode `0o755` (the
`os.chmod` immediately after each write). -/
def create_desktop_file (cfg : Config) (md5 : List String → String) (now : Int)
    (tree : FileSys) (fs : FileSys) (p : String) : FileSys :=
  let app := stemOf p
  let dfp := cfg.desktopDir ++ "/" ++ app ++ ".desktop"
  let ei := extract_icon cfg tree fs app
  match readFS ei.fst p with
  | none => ei.fst
  | some bundle =>
    let h := strTake 8 (md5 bundle.content)
    let content := desktopLines app p ei.snd h now
    let fs2 := writeFS ei.fst dfp ⟨content, (now : Rat), 0o755⟩
    if cfg.createShortcuts then
      let sfp := cfg.shortcutsDir ++ "/" ++ app ++ ".desktop"
      let fs3 := writeFS fs2 sfp ⟨content, (now : Rat), 0o755⟩
      (validate_desktop_shortcut fs3 sfp).fst
    else fs2

/-! ### `get_appimage_metadata` and `needs_update` -/

structure Metadata where
  mtime : Rat
  hash : String
deriving DecidableEq, Repr

/-- Model of `get_appimage_metadata`: `None` when the bundle cannot be
read. -/
def get_appimage_metadata (md5 : List String → String) (fs : FileSys) (p : String) :
    Option Metadata :=
  match readFS fs p with
  | none => none
  | some d => some ⟨d.mtime, strTake 8 (md5 d.content)⟩

/-- The field-scanning loop of `needs_update`: the last
`X-AppImage-Hash=` line wins (`line.split('=')[1]`), the last
`X-AppImage-LastUpdate=` line wins (parsed with `float`); a `float`
parse failure raises `ValueError`, modelled as `none` (the enclosing
`except` then returns `True`). -/
def scanStored : List String → Option String → Option Rat →
    Option (Option String × Option Rat)
  | [], h, t => some (h, t)
  | line :: rest, h, t =>
    if strStarts "X-AppImage-Hash=" line then
      scanStored rest (some (idx1 (splitChar '=' line))) t
    else if strStarts "X-AppImage-LastUpdate=" line then
      match pyFloat? (idx1 (splitChar '=' line)) with
      | none => none
      | some v => scanStored rest h (some v)
    else scanStored rest h t

/-- Model of `abs(stored_time - mtime) > 1` on exact rationals, computed
by integer cross-multiplication (equivalent to `1 < |t - mt|`, proved in
`tolExceeded_iff` below, but kernel-executable). -/
def tolExceeded (t mt : Rat) : Bool :=
  t.den * mt.den < (t.num * (mt.den : Int) - mt.num * (t.den : Int)).natAbs

/-- The final comparison of `needs_update`, including the Python
truthiness test `if not stored_hash or not stored_time` (an empty hash
string and a `0.0` timestamp count as missing). -/
def judgeStored (md : Metadata) : Option String × Option Rat → Bool
  | (some h, some t) =>
    if h = "" ∨ t = 0 then true
    else decide (¬h = md.hash) || tolExceeded t md.mtime
  | _ => true

/-- Model of `needs_update(appimage_path, desktop_file_path)`. -/
def needs_update (md5 : List String → String) (fs : FileSys) (ap dp : String) : Bool :=
  match readFS fs dp with
  | none => true
  | some entry =>
    match get_appimage_metadata md5 fs ap with
    | none => true
    | some md =>
      match scanStored entry.content none none with
      | none => true
      | some pr => judgeStored md pr

/-! ### `clean_desktop_files` (orphan sweep) -/

/-- A `X-AppImage-Path=` line's recorded bundle path:
`line.split("=", 1)[1].strip()`. -/
def lineTarget (line : String) : String := trimStr (afterFirst '=' line)

/-- The line makes its entry an orphan: it carries the provenance field
and the recorded path does not exist. -/
def lineOrphan (fs : FileSys) (line : String) : Bool :=
  strStarts "X-AppImage-Path=" line && !existsFS fs (lineTarget line)

/-- The per-file decision of the sweep loop: the file is deleted exactly
when its content contains the `X-AppImage-Path=` marker and some line
starting with it records a non-existing path (the loop `break` sits
inside the deletion branch, so later provenance lines are still
examined when an earlier one's path exists). -/
def delCond (fs : FileSys) (q : String) : Bool :=
  match readFS fs q with
  | none => false
  | some d =>
    d.content.any (fun line => occursIn "X-AppImage-Path=" line)
      && d.content.any (fun line => lineOrphan fs line)

/-- One iteration of the sweep over a single `.desktop` file. -/
def cleanFile (fs : FileSys) (q : String) : FileSys :=
  if delCond fs q then unlinkFS fs q else fs

/-- Model of `clean_desktop_files`: sweep the primary launcher directory,
then the shortcut directory (whose glob sees the state after the first
pass). -/
def clean_desktop_files (cfg : Config) (fs : FileSys) : FileSys :=
  let fs1 := (globExt fs cfg.desktopDir ".desktop").foldl cleanFile fs
  (globExt fs1 cfg.shortcutsDir ".desktop").foldl cleanFile fs1

/-! ### Event dispatch and the startup scan -/

inductive EvKind where
  | create | delete | modify | movedFrom | movedTo
deriving DecidableEq, Repr

/-- Model of the `EventHandler` dispatch: every handler first requires the
exact suffix `.AppImage` on the event's pathname. -/
def process_event (cfg : Config) (md5 : List String → String) (now : Int)
    (tree : FileSys) (fs : FileSys) (k : EvKind) (pathname : String) : FileSys :=
  if strEnds ".AppImage" pathname then
    match k with
    | .create => create_desktop_file cfg md5 now tree fs pathname
    | .movedTo => create_desktop_file cfg md5 now tree fs pathname
    | .modify =>
      if needs_update md5 fs pathname
          (cfg.desktopDir ++ "/" ++ stemOf pathname ++ ".desktop") then
        create_desktop_file cfg md5 now tree fs pathname
      else fs
    | .delete => clean_desktop_files cfg fs
    | .movedFrom => clean_desktop_files cfg fs
  else fs

/-- Model of the startup pass of `monitor_appimages`: regenerate stale
entries for every `*.AppImage` in the watch directory, then sweep. -/
def initial_scan (cfg : Config) (md5 : List String → String) (now : Int)
    (tree : FileSys) (fs : FileSys) : FileSys :=
  let fs1 := (globExt fs cfg.watchDir ".AppImage").foldl
    (fun acc a =>
      if needs_update md5 acc a (cfg.desktopDir ++ "/" ++ stemOf a ++ ".desktop") then
        create_desktop_file cfg md5 now tree acc a
      else acc)
    fs
  clean_desktop_files cfg fs1

/-! ## Basic lemmas about the string primitives -/

theorem mk_data (s : String) : String.mk s.data = s := rfl

theorem data_append (a b : String) : (a ++ b).data = a.data ++ b.data := rfl

theorem listPre_refl (l : List Char) : listPre l l = true := by
  induction l with
  | nil => rfl
  | cons a as ih => simp [listPre, ih]

theorem listPre_self_append (a b : List Char) : listPre a (a ++ b) = true := by
  induction a with
  | nil => rfl
  | cons c cs ih => simp [listPre, ih]

theorem listPre_append_left {a t : List Char} (s : List Char)
    (h : listPre a t = true) : listPre a (t ++ s) = true := by
  induction a generalizing t with
  | nil => rfl
  | cons c cs ih =>
    cases t with
    | nil => simp [listPre] at h
    | cons b bs =>
      simp only [listPre] at h ⊢
      split at h
      · next hc => simpa [hc] using ih h
      · exact absurd h (by simp)

theorem listPre_trans {a b c : List Char} (h1 : listPre a b = true)
    (h2 : listPre b c = true) : listPre a c = true := by
  induction a generalizing b c with
  | nil => rfl
  | cons x xs ih =>
    cases b with
    | nil => simp [listPre] at h1
    | cons y ys =>
      cases c with
      | nil => simp [listPre] at h2
      | cons z zs =>
        simp only [listPre] at h1 h2 ⊢
        split at h1
        · next hxy =>
          split at h2
          · next hyz =>
            subst hxy; subst hyz
            simp only [if_pos rfl]
            exact ih h1 h2
          · exact absurd h2 (by simp)
        · exact absurd h1 (by simp)

theorem clash_not_pre {a c : List Char} (s : List Char) (h : clash a c = true) :
    listPre a (c ++ s) = false := by
  induction a generalizing c with
  | nil => simp [clash] at h
  | cons x xs ih =>
    cases c with
    | nil => simp [clash] at h
    | cons y ys =>
      simp only [clash] at h
      simp only [List.cons_append, listPre]
      split at h
      · next hxy => simpa [hxy] using ih h
      · next hxy => simp [hxy]

theorem starts_self_append (pat s : String) : strStarts pat (pat ++ s) = true := by
  unfold strStarts
  rw [data_append]
  exact listPre_self_append _ _

theorem starts_append_false {pat c : String} (s : String)
    (h : clash pat.data c.data = true) : strStarts pat (c ++ s) = false := by
  unfold strStarts
  rw [data_append]
  exact clash_not_pre _ h

theorem starts_occurs {pat s : String} (h : strStarts pat s = true) :
    occursIn pat s = true := by
  unfold strStarts at h
  unfold occursIn
  cases hs : s.data with
  | nil => rw [hs] at h; simpa [occursInAux] using h
  | cons c cs => rw [hs] at h; simp [occursInAux, h]

/-! ## Basic lemmas about the filesystem model -/

theorem readFS_unlink (fs : FileSys) (q x : String) :
    readFS (unlinkFS fs q) x = if x = q then none else readFS fs x := by
  induction fs with
  | nil => simp [unlinkFS, readFS]
  | cons e r ih =>
    by_cases he : e.1 = q
    · by_cases hx : x = q
      · subst hx
        simp [unlinkFS, he, ih]
      · have hex : ¬e.1 = x := by rw [he]; intro h; exact hx h.symm
        have hqx : ¬q = x := fun h => hx h.symm
        simp [unlinkFS, readFS, he, ih, hx, hex, hqx]
    · by_cases hex : e.1 = x
      · have hx : ¬x = q := by rw [← hex]; intro h; exact he h
        simp [unlinkFS, readFS, he, ih, hx, hex]
      · simp [unlinkFS, readFS, he, ih, hex]

theorem readFS_write (fs : FileSys) (p : String) (d : FileData) (x : String) :
    readFS (writeFS fs p d) x = if x = p then some d else readFS fs x := by
  by_cases hx : x = p
  · simp [writeFS, readFS, hx]
  · have hpx : ¬p = x := fun h => hx h.symm
    simp [writeFS, readFS, hpx, readFS_unlink, hx]

theorem readFS_writeAll_not_mem (fs : FileSys) (l : FileSys) (x : String)
    (hx : ∀ e ∈ l, ¬e.1 = x) : readFS (writeAllFS fs l) x = readFS fs x := by
  induction l generalizing fs with
  | nil => rfl
  | cons e r ih =>
    have h1 : readFS (writeFS fs e.1 e.2) x = readFS fs x := by
      rw [readFS_write]
      rw [if_neg]
      intro h
      exact hx e (by simp) h.symm
    have := ih (writeFS fs e.1 e.2) (fun e' he' => hx e' (by simp [he']))
    simpa [writeAllFS] using this.trans h1

/-! ## The tolerance check equals the 1-second rule on exact rationals -/

theorem tolExceeded_iff (t mt : Rat) : tolExceeded t mt = true ↔ 1 < |t - mt| := by
  unfold tolExceeded
  rw [decide_eq_true_eq]
  have hdt : (0 : ℚ) < (t.den : ℚ) := by exact_mod_cast t.den_pos
  have hdm : (0 : ℚ) < (mt.den : ℚ) := by exact_mod_cast mt.den_pos
  have hb : (0 : ℚ) < ((t.den : ℚ) * (mt.den : ℚ)) := mul_pos hdt hdm
  have hx : t - mt =
      ((t.num * (mt.den : Int) - mt.num * (t.den : Int) : Int) : ℚ) /
        ((t.den : ℚ) * (mt.den : ℚ)) := by
    conv_lhs => rw [← Rat.num_div_den t, ← Rat.num_div_den mt]
    rw [div_sub_div _ _ (ne_of_gt hdt) (ne_of_gt hdm)]
    push_cast
    ring_nf
  rw [hx, abs_div, abs_of_pos hb, one_lt_div hb, ← Int.cast_abs,
    Int.abs_eq_natAbs]
  constructor
  · intro h
    exact_mod_cast h
  · intro h
    exact_mod_cast h

/-! ## Claim C1: the staleness characterization -/

theorem data_nil_iff (s : String) : s.data = [] ↔ s = "" := by
  constructor
  · intro h
    rw [← mk_data s, h]
  · intro h
    rw [h]

theorem strTake8_ne {s : String} (h : ¬s = "") : ¬strTake 8 s = "" := by
  intro hc
  apply h
  unfold strTake at hc
  have hdat : s.data.take 8 = [] := by
    have := congrArg String.data hc
    simpa using this
  rcases List.take_eq_nil_iff.mp hdat with h8 | hd
  · exact absurd h8 (by norm_num)
  · exact (data_nil_iff s).mp hd

/-- Spec-side final comparison: stale when the recorded fingerprint
differs or the timestamps differ by more than one second; a missing
field is stale.  (Written from the spec's words in claim C1.) -/
def judgeSpec (md : Metadata) : Option String × Option Rat → Bool
  | (some h, some t) => decide (¬h = md.hash) || tolExceeded t md.mtime
  | _ => true

/-- Spec-side staleness predicate of claim C1: entry missing, metadata
unreadable, field missing, fingerprint mismatch, or timestamps apart by
more than one second; an unexpected read error (the unparsable-float
case) is stale. -/
def isStale_spec (md5 : List String → String) (fs : FileSys) (ap dp : String) : Bool :=
  match readFS fs dp with
  | none => true
  | some entry =>
    match get_appimage_metadata md5 fs ap with
    | none => true
    | some md =>
      match scanStored entry.content none none with
      | none => true
      | some pr => judgeSpec md pr

/-- The amended final comparison: additionally stale when the recorded
timestamp is exactly `0` (Python's falsiness test treats a zero
timestamp as missing). -/
def judgeAmended (md : Metadata) : Option String × Option Rat → Bool
  | (some h, some t) => decide (¬h = md.hash) || decide (t = 0) || tolExceeded t md.mtime
  | _ => true

/-- The amended staleness predicate of claim C1. -/
def isStale_amended (md5 : List String → String) (fs : FileSys) (ap dp : String) : Bool :=
  match readFS fs dp with
  | none => true
  | some entry =>
    match get_appimage_metadata md5 fs ap with
    | none => true
    | some md =>
      match scanStored entry.content none none with
      | none => true
      | some pr => judgeAmended md pr

/-- Claim C1, as stated, is false: an entry whose recorded hash matches
and whose recorded timestamp is `0` while the bundle's mtime is `0`
(within the 1-second tolerance) is still reported stale by
`needs_update`, because `float(0)` is falsy in Python. -/
theorem C1_counterexample :
    needs_update (fun _ => "aaaaaaaa")
      [("/w/App.AppImage", ⟨["bin"], 0, 0o755⟩),
       ("/apps/App.desktop",
        ⟨["X-AppImage-Hash=aaaaaaaa", "X-AppImage-LastUpdate=0"], 0, 0o755⟩)]
      "/w/App.AppImage" "/apps/App.desktop" = true ∧
    isStale_spec (fun _ => "aaaaaaaa")
      [("/w/App.AppImage", ⟨["bin"], 0, 0o755⟩),
       ("/apps/App.desktop",
        ⟨["X-AppImage-Hash=aaaaaaaa", "X-AppImage-LastUpdate=0"], 0, 0o755⟩)]
      "/w/App.AppImage" "/apps/App.desktop" = false :=
  ⟨by decide, by decide⟩

/-- Claim C1 (amended): provided the content digest is never the empty
string (true of an MD5 hexdigest), `needs_update` returns true exactly
when the entry file does not exist, or the bundle's metadata cannot be
read, or the entry lacks a recorded hash or timestamp field, or an
unexpected read error occurs while parsing, or the recorded hash
differs from the current one, or the recorded timestamp is exactly
zero, or the recorded and current timestamps differ by more than one
second; it returns false otherwise. -/
theorem C1_needs_update_amended (md5 : List String → String) (fs : FileSys)
    (ap dp : String) (hm : ∀ s, ¬md5 s = "") :
    needs_update md5 fs ap dp = isStale_amended md5 fs ap dp := by
  cases hd : readFS fs dp with
  | none => simp [needs_update, isStale_amended, hd]
  | some entry =>
    cases hmd : get_appimage_metadata md5 fs ap with
    | none => simp [needs_update, isStale_amended, hd, hmd]
    | some md =>
      have hhash : ¬md.hash = "" := by
        unfold get_appimage_metadata at hmd
        cases hb : readFS fs ap with
        | none => rw [hb] at hmd; cases hmd
        | some b =>
          rw [hb] at hmd
          injection hmd with h
          rw [← h]
          exact strTake8_ne (hm b.content)
      cases hs : scanStored entry.content none none with
      | none => simp [needs_update, isStale_amended, hd, hmd, hs]
      | some pr =>
        have hj : judgeStored md pr = judgeAmended md pr := by
          obtain ⟨sh, st⟩ := pr
          cases sh with
          | none => cases st <;> rfl
          | some h =>
            cases st with
            | none => rfl
            | some t =>
              by_cases hhe : h = ""
              · subst hhe
                have hne : ¬("" : String) = md.hash := fun hcon => hhash hcon.symm
                simp [judgeStored, judgeAmended, hne]
              · by_cases hte : t = 0
                · simp [judgeStored, judgeAmended, hhe, hte]
                · simp [judgeStored, judgeAmended, hhe, hte]
        simp [needs_update, isStale_amended, hd, hmd, hs, hj]

/-- Witness for C1: the amended characterization at a concrete state. -/
theorem C1_witness :
    (∀ s : List String, ¬(fun _ : List String => "aaaaaaaa") s = "") ∧
    needs_update (fun _ => "aaaaaaaa")
      [("/w/App.AppImage", ⟨["bin"], 3, 0o755⟩),
       ("/apps/App.desktop",
        ⟨["X-AppImage-Hash=aaaaaaaa", "X-AppImage-LastUpdate=3"], 3, 0o755⟩)]
      "/w/App.AppImage" "/apps/App.desktop" =
    isStale_amended (fun _ => "aaaaaaaa")
      [("/w/App.AppImage", ⟨["bin"], 3, 0o755⟩),
       ("/apps/App.desktop",
        ⟨["X-AppImage-Hash=aaaaaaaa", "X-AppImage-LastUpdate=3"], 3, 0o755⟩)]
      "/w/App.AppImage" "/apps/App.desktop" :=
  ⟨fun _ => by show ¬("aaaaaaaa" : String) = ""; decide,
   C1_needs_update_amended (fun _ => "aaaaaaaa") _ _ _
     (fun _ => by show ¬("aaaaaaaa" : String) = ""; decide)⟩

/-! ## Decimal rendering round-trip (for the `X-AppImage-LastUpdate` field) -/

theorem data_mk (l : List Char) : (String.mk l).data = l := rfl

theorem natVal_append (l : List Char) (c : Char) :
    natVal (l ++ [c]) = 10 * natVal l + (c.toNat - 48) := by
  unfold natVal
  rw [List.foldl_append]
  simp [List.foldl, Nat.mul_comm]

/-- The only characters `natDigitsAux` emits are decimal digits; in
particular they are not whitespace, `=`, `.`, `-` or `+`. -/
theorem natDigitsAux_prop :
    ∀ fuel n, n < fuel → ∀ c ∈ natDigitsAux fuel n,
      c.isDigit = true ∧ c.isWhitespace = false ∧ ¬c = '=' ∧ ¬c = '.' ∧
        ¬c = '-' ∧ ¬c = '+' := by
  intro fuel
  induction fuel with
  | zero => intro n h; omega
  | succ f ih =>
    intro n h c hc
    by_cases h10 : n < 10
    · simp only [natDigitsAux, if_pos h10, List.mem_singleton] at hc
      subst hc
      interval_cases n <;> decide
    · simp only [natDigitsAux, if_neg h10, List.mem_append, List.mem_singleton] at hc
      rcases hc with hc | hc
      · exact ih (n / 10) (by omega) c hc
      · subst hc
        have hlt : n % 10 < 10 := Nat.mod_lt _ (by norm_num)
        generalize hg : n % 10 = m at hlt ⊢
        interval_cases m <;> decide

theorem natDigitsAux_val : ∀ fuel n, n < fuel → natVal (natDigitsAux fuel n) = n := by
  intro fuel
  induction fuel with
  | zero => intro n h; omega
  | succ f ih =>
    intro n h
    by_cases h10 : n < 10
    · simp only [natDigitsAux, if_pos h10]
      interval_cases n <;> decide
    · simp only [natDigitsAux, if_neg h10]
      rw [natVal_append, ih (n / 10) (by omega)]
      have hlt : n % 10 < 10 := Nat.mod_lt _ (by norm_num)
      have hm : (Char.ofNat (48 + n % 10)).toNat - 48 = n % 10 := by
        generalize hg : n % 10 = m at hlt ⊢
        interval_cases m <;> decide
      rw [hm]
      omega

theorem natDigits_prop (n : Nat) :
    ∀ c ∈ natDigits n,
      c.isDigit = true ∧ c.isWhitespace = false ∧ ¬c = '=' ∧ ¬c = '.' ∧
        ¬c = '-' ∧ ¬c = '+' :=
  natDigitsAux_prop (n + 1) n (Nat.lt_succ_self n)

theorem natDigits_val (n : Nat) : natVal (natDigits n) = n :=
  natDigitsAux_val (n + 1) n (Nat.lt_succ_self n)

theorem natDigits_ne_nil (n : Nat) : natDigits n ≠ [] := by
  unfold natDigits natDigitsAux
  by_cases h10 : n < 10
  · simp [h10]
  · simp [h10]

theorem intToStr_no_eq (i : Int) : ('=' : Char) ∉ (intToStr i).data := by
  cases i with
  | ofNat n =>
    intro hm
    exact ((natDigits_prop n) '=' hm).2.2.1 rfl
  | negSucc m =>
    intro hm
    rcases List.mem_cons.mp hm with hm | hm
    · exact absurd hm (by decide)
    · exact ((natDigits_prop (m + 1)) '=' hm).2.2.1 rfl

theorem dropWhile_all_false {p : Char → Bool} :
    ∀ {l : List Char}, (∀ c ∈ l, p c = false) → l.dropWhile p = l := by
  intro l h
  cases l with
  | nil => rfl
  | cons a as => simp [List.dropWhile_cons, h a (by simp)]

theorem trimData_eq {l : List Char} (h : ∀ c ∈ l, c.isWhitespace = false) :
    trimData l = l := by
  unfold trimData
  rw [dropWhile_all_false h,
    dropWhile_all_false (fun c hc => h c (List.mem_reverse.mp hc)),
    List.reverse_reverse]

theorem stripSign_no_sign {l : List Char} (hne : l ≠ [])
    (h : ∀ c ∈ l, ¬c = '-' ∧ ¬c = '+') : stripSign l = (false, l) := by
  cases l with
  | nil => exact absurd rfl hne
  | cons a as =>
    have ha := h a (by simp)
    simp [stripSign, ha.1, ha.2]

theorem splitCharData_not_mem {c : Char} :
    ∀ {l : List Char}, c ∉ l → splitCharData c l = [l] := by
  intro l
  induction l with
  | nil => intro _; rfl
  | cons a as ih =>
    intro h
    have ha : ¬a = c := fun hac => h (by simp [hac])
    have has : c ∉ as := fun hmem => h (by simp [hmem])
    simp [splitCharData, ha, ih has]

theorem splitCharData_append {c : Char} :
    ∀ {a : List Char}, c ∉ a → ∀ b,
      splitCharData c (a ++ c :: b) = a :: splitCharData c b := by
  intro a
  induction a with
  | nil => intro _ b; simp [splitCharData]
  | cons x xs ih =>
    intro h b
    have hx : ¬x = c := fun hxc => h (by simp [hxc])
    have hxs : c ∉ xs := fun hm => h (by simp [hm])
    simp [splitCharData, hx, ih hxs b]

/-- Extracting a `KEY=value` field with `line.split('=')[1]` returns the
value when neither `KEY` nor the value contains `=`. -/
theorem splitChar_eqField (pre preEq v : String)
    (hsplit : preEq.data = pre.data ++ ['='])
    (hpre : ('=' : Char) ∉ pre.data) (hv : ('=' : Char) ∉ v.data) :
    idx1 (splitChar '=' (preEq ++ v)) = v := by
  unfold splitChar
  rw [data_append, hsplit, List.append_assoc, List.singleton_append,
    splitCharData_append hpre, splitCharData_not_mem hv]
  simp [idx1, mk_data]

theorem pyFloat_intToStr (i : Int) : pyFloat? (intToStr i) = some ((i : Rat)) := by
  cases i with
  | ofNat n =>
    have hprop := natDigits_prop n
    have ht : trimData (natDigits n) = natDigits n :=
      trimData_eq (fun c hc => (hprop c hc).2.1)
    have hs : stripSign (natDigits n) = (false, natDigits n) :=
      stripSign_no_sign (natDigits_ne_nil n)
        (fun c hc => ⟨(hprop c hc).2.2.2.2.1, (hprop c hc).2.2.2.2.2⟩)
    have hsp : splitCharData '.' (natDigits n) = [natDigits n] :=
      splitCharData_not_mem (fun hm => (hprop '.' hm).2.2.2.1 rfl)
    have hne : (natDigits n).isEmpty = false := by
      cases hd : natDigits n with
      | nil => exact absurd hd (natDigits_ne_nil n)
      | cons a as => rfl
    have hdig : digitsOnly (natDigits n) = true := by
      unfold digitsOnly
      rw [List.all_eq_true]
      intro c hc
      exact (hprop c hc).1
    simp only [pyFloat?, intToStr, data_mk, ht, hs, hsp, hne, hdig]
    simp [natDigits_val n]
  | negSucc m =>
    have hprop := natDigits_prop (m + 1)
    have hws : ∀ c ∈ '-' :: natDigits (m + 1), c.isWhitespace = false := by
      intro c hc
      rcases List.mem_cons.mp hc with hc | hc
      · subst hc; decide
      · exact (hprop c hc).2.1
    have ht : trimData ('-' :: natDigits (m + 1)) = '-' :: natDigits (m + 1) :=
      trimData_eq hws
    have hsp : splitCharData '.' (natDigits (m + 1)) = [natDigits (m + 1)] :=
      splitCharData_not_mem (fun hm => (hprop '.' hm).2.2.2.1 rfl)
    have hne : (natDigits (m + 1)).isEmpty = false := by
      cases hd : natDigits (m + 1) with
      | nil => exact absurd hd (natDigits_ne_nil (m + 1))
      | cons a as => rfl
    have hdig : digitsOnly (natDigits (m + 1)) = true := by
      unfold digitsOnly
      rw [List.all_eq_true]
      intro c hc
      exact (hprop c hc).1
    simp only [pyFloat?, intToStr, data_mk, ht, stripSign, if_pos rfl]
    simp [hsp, hne, hdig, natDigits_val (m + 1), natDigits_ne_nil (m + 1)]

/-! ## Symbolic evaluation of the field scan over a rendered entry -/

theorem scanStored_skip (line : String) (rest : List String)
    (h : Option String) (t : Option Rat)
    (h1 : strStarts "X-AppImage-Hash=" line = false)
    (h2 : strStarts "X-AppImage-LastUpdate=" line = false) :
    scanStored (line :: rest) h t = scanStored rest h t := by
  simp [scanStored, h1, h2]

theorem scanStored_hashLine (v : String) (rest : List String)
    (h : Option String) (t : Option Rat) (hv : ('=' : Char) ∉ v.data) :
    scanStored (("X-AppImage-Hash=" ++ v) :: rest) h t = scanStored rest (some v) t := by
  have h1 : strStarts "X-AppImage-Hash=" ("X-AppImage-Hash=" ++ v) = true :=
    starts_self_append _ _
  have hval : idx1 (splitChar '=' ("X-AppImage-Hash=" ++ v)) = v :=
    splitChar_eqField "X-AppImage-Hash" _ v (by decide) (by decide) hv
  simp [scanStored, h1, hval]

theorem scanStored_timeLine (i : Int) (rest : List String)
    (h : Option String) (t : Option Rat) :
    scanStored (("X-AppImage-LastUpdate=" ++ intToStr i) :: rest) h t
      = scanStored rest h (some ((i : Rat))) := by
  have h1 : strStarts "X-AppImage-Hash=" ("X-AppImage-LastUpdate=" ++ intToStr i) = false :=
    starts_append_false _ (by decide)
  have h2 : strStarts "X-AppImage-LastUpdate=" ("X-AppImage-LastUpdate=" ++ intToStr i) = true :=
    starts_self_append _ _
  have hval : idx1 (splitChar '=' ("X-AppImage-LastUpdate=" ++ intToStr i))
      = intToStr i :=
    splitChar_eqField "X-AppImage-LastUpdate" _ _ (by decide) (by decide) (intToStr_no_eq i)
  simp [scanStored, h1, h2, hval, pyFloat_intToStr]

/-- Scanning the rendered entry recovers exactly the embedded hash and
the embedded integer timestamp. -/
theorem scanStored_desktopLines (app p icon h : String) (now : Int)
    (hh : ('=' : Char) ∉ h.data) :
    scanStored (desktopLines app p icon h now) none none
      = some (some h, some ((now : Rat))) := by
  unfold desktopLines
  rw [scanStored_skip _ _ _ _ (by decide) (by decide)]
  rw [scanStored_skip _ _ _ _ (by decide) (by decide)]
  rw [scanStored_skip _ _ _ _ (starts_append_false _ (by decide))
    (starts_append_false _ (by decide))]
  rw [scanStored_skip _ _ _ _ (starts_append_false _ (by decide))
    (starts_append_false _ (by decide))]
  rw [scanStored_skip _ _ _ _ (starts_append_false _ (by decide))
    (starts_append_false _ (by decide))]
  rw [scanStored_skip _ _ _ _ (by decide) (by decide)]
  rw [scanStored_skip _ _ _ _ (by decide) (by decide)]
  rw [scanStored_skip _ _ _ _ (by decide) (by decide)]
  rw [scanStored_skip _ _ _ _ (by decide) (by decide)]
  rw [scanStored_skip _ _ _ _ (by decide) (by decide)]
  rw [scanStored_skip _ _ _ _ (starts_append_false _ (by decide))
    (starts_append_false _ (by decide))]
  rw [scanStored_hashLine _ _ _ _ hh]
  rw [scanStored_timeLine]
  rfl

/-! ## Frame lemmas: `extract_icon` and `create_desktop_file` touch only
their own paths -/

theorem scratch_key_starts (rel : String) :
    strStarts squashfs (squashfs ++ "/" ++ rel) = true := by
  unfold strStarts
  rw [data_append, data_append, List.append_assoc]
  exact listPre_self_append _ _

theorem scratchKey_of_not_starts {x : String} (hx : strStarts squashfs x = false) :
    scratchKey x = false := by
  unfold scratchKey
  have h1 : ¬x = squashfs := by
    intro h
    rw [h] at hx
    rw [show strStarts squashfs squashfs = true from listPre_refl _] at hx
    cases hx
  have h2 : strStarts (squashfs ++ "/") x = false := by
    cases hcs : strStarts (squashfs ++ "/") x with
    | false => rfl
    | true =>
      exfalso
      have hpre : listPre squashfs.data (squashfs ++ "/").data = true := by
        rw [data_append]
        exact listPre_self_append _ _
      have := listPre_trans hpre hcs
      rw [show listPre squashfs.data x.data = strStarts squashfs x from rfl, hx] at this
      cases this
  simp [h1, h2]

theorem readFS_removeScratch (fs : FileSys) (x : String)
    (hx : scratchKey x = false) :
    readFS (removeScratch fs) x = readFS fs x := by
  induction fs with
  | nil => rfl
  | cons e r ih =>
    unfold removeScratch at ih ⊢
    rw [List.filter_cons]
    by_cases he : e.1 = x
    · have hk : (!scratchKey e.1) = true := by rw [he, hx]; rfl
      simp [hk, readFS, he, ih, hx]
    · by_cases hk : scratchKey e.1
      · simp [hk, readFS, he, ih]
      · simp [hk, readFS, he, ih]

theorem deposit_reads (tree fs : FileSys) (x : String)
    (hx : strStarts squashfs x = false) :
    readFS (writeAllFS fs (scratchDeposit tree)) x = readFS fs x := by
  apply readFS_writeAll_not_mem
  intro e he
  unfold scratchDeposit at he
  rcases List.mem_map.mp he with ⟨e0, _, rfl⟩
  intro hex
  have hex' : squashfs ++ "/" ++ e0.1 = x := hex
  have hst := scratch_key_starts e0.1
  rw [hex'] at hst
  rw [hst] at hx
  cases hx

theorem tryFormats_reads (app dir icon : String) (st : SearchSt) (x : String)
    (hx : ¬x = icon) : readFS (tryFormats app dir icon st).fs x = readFS st.fs x := by
  cases hfe : firstExisting st.fs (icon_formats.map (fun fmt => dir ++ "/" ++ app ++ fmt)) with
  | none => simp [tryFormats, hfe]
  | some src =>
    cases hrd : readFS st.fs src with
    | none => simp [tryFormats, hfe, hrd]
    | some d => simp [tryFormats, hfe, hrd, readFS_write, hx]

theorem tryNames_reads (dir icon : String) (st : SearchSt) (x : String)
    (hx : ¬x = icon) : readFS (tryNames dir icon st).fs x = readFS st.fs x := by
  cases hfe : firstExisting st.fs (common_icon_names.map (fun n => dir ++ "/" ++ n)) with
  | none => simp [tryNames, hfe]
  | some src =>
    cases hrd : readFS st.fs src with
    | none => simp [tryNames, hfe, hrd]
    | some d => simp [tryNames, hfe, hrd, readFS_write, hx]

theorem foldl_search_reads {α : Type} (f : SearchSt → α → SearchSt) (x : String)
    (hf : ∀ st a, readFS (f st a).fs x = readFS st.fs x) :
    ∀ (l : List α) (st : SearchSt), readFS ((l.foldl f st).fs) x = readFS st.fs x := by
  intro l
  induction l with
  | nil => intro st; rfl
  | cons a r ih =>
    intro st
    rw [List.foldl_cons, ih, hf]

theorem scanResLoc_reads (app loc icon : String) (st : SearchSt) (x : String)
    (hx : ¬x = icon) : readFS (scanResLoc app loc icon st).fs x = readFS st.fs x := by
  unfold scanResLoc
  exact foldl_search_reads _ x (fun st res => tryFormats_reads _ _ _ _ _ hx) _ st

theorem searchNamed_reads (app icon : String) (st : SearchSt) (x : String)
    (hx : ¬x = icon) : readFS (searchNamed app icon st).fs x = readFS st.fs x := by
  unfold searchNamed
  apply foldl_search_reads _ x
  intro st loc
  by_cases hfound : st.found
  · simp [hfound]
  · by_cases hres : occursIn "{resolution}" loc
    · simp [hfound, hres, scanResLoc_reads _ _ _ _ _ hx]
    · simp [hfound, hres, tryFormats_reads _ _ _ _ _ hx]

theorem searchCommon_reads (app icon : String) (st : SearchSt) (x : String)
    (hx : ¬x = icon) : readFS (searchCommon app icon st).fs x = readFS st.fs x := by
  unfold searchCommon
  apply foldl_search_reads _ x
  intro st loc
  by_cases hfound : st.found
  · simp [hfound]
  · by_cases hres : occursIn "{resolution}" loc
    · simp [hfound, hres]
    · simp [hfound, hres, tryNames_reads _ _ _ _ hx]

theorem searchBoth_reads (app icon : String) (fs : FileSys) (x : String)
    (hx : ¬x = icon) : readFS (searchBoth app icon fs).fs x = readFS fs x := by
  unfold searchBoth
  by_cases h1 : (searchNamed app icon ⟨fs, false⟩).found
  · simp [h1, searchNamed_reads _ _ _ _ hx]
  · simp [h1, searchCommon_reads _ _ _ _ hx, searchNamed_reads _ _ _ _ hx]

/-- Outside the scratch tree and the canonical icon target, `extract_icon`
changes nothing. -/
theorem extract_icon_reads (cfg : Config) (tree fs : FileSys) (app x : String)
    (hx1 : strStarts squashfs x = false) (hx2 : ¬x = canonicalIcon cfg app) :
    readFS (extract_icon cfg tree fs app).fst x = readFS fs x := by
  cases hfe : firstExisting fs (existingIconCands cfg app) with
  | some q => simp [extract_icon, hfe]
  | none =>
    by_cases hdir : existsDirFS (writeAllFS fs (scratchDeposit tree)) squashfs
    · simp only [extract_icon, hfe, hdir, Bool.not_true, Bool.false_eq_true,
        if_false]
      rw [readFS_removeScratch _ _ (scratchKey_of_not_starts hx1),
        searchBoth_reads _ _ _ _ hx2, deposit_reads _ _ _ hx1]
    · simp only [extract_icon, hfe, hdir, Bool.not_false, if_true]
      exact deposit_reads _ _ _ hx1

theorem validate_mode_ok (fs : FileSys) (p : String) (d : FileData)
    (hrd : readFS fs p = some d) (hm : d.mode = 0o755) :
    (validate_desktop_shortcut fs p).fst = fs := by
  simp [validate_desktop_shortcut, hrd, hm]

/-- When the bundle is readable after icon resolution,
`create_desktop_file` leaves the rendered entry at the primary path. -/
theorem create_writes_entry (cfg : Config) (md5 : List String → String) (now : Int)
    (tree fs : FileSys) (p : String) (bundle : FileData)
    (hb : readFS (extract_icon cfg tree fs (stemOf p)).fst p = some bundle) :
    readFS (create_desktop_file cfg md5 now tree fs p)
        (cfg.desktopDir ++ "/" ++ stemOf p ++ ".desktop")
      = some ⟨desktopLines (stemOf p) p (extract_icon cfg tree fs (stemOf p)).snd
          (strTake 8 (md5 bundle.content)) now, (now : Rat), 0o755⟩ := by
  cases hcs : cfg.createShortcuts with
  | false => simp [create_desktop_file, hb, hcs, readFS_write]
  | true =>
    simp only [create_desktop_file, hb, hcs, if_true]
    rw [validate_mode_ok _ _
      ⟨desktopLines (stemOf p) p (extract_icon cfg tree fs (stemOf p)).snd
          (strTake 8 (md5 bundle.content)) now, (now : Rat), 0o755⟩
      (by rw [readFS_write]; simp) rfl]
    rw [readFS_write]
    by_cases hds : cfg.desktopDir ++ "/" ++ stemOf p ++ ".desktop"
        = cfg.shortcutsDir ++ "/" ++ stemOf p ++ ".desktop"
    · simp [hds]
    · simp [hds, readFS_write]

/-- At any path other than the two written entry paths,
`create_desktop_file` behaves like `extract_icon` alone. -/
theorem create_reads_other (cfg : Config) (md5 : List String → String) (now : Int)
    (tree fs : FileSys) (p x : String)
    (hxd : ¬x = cfg.desktopDir ++ "/" ++ stemOf p ++ ".desktop")
    (hxs : ¬x = cfg.shortcutsDir ++ "/" ++ stemOf p ++ ".desktop") :
    readFS (create_desktop_file cfg md5 now tree fs p) x
      = readFS (extract_icon cfg tree fs (stemOf p)).fst x := by
  cases hrb : readFS (extract_icon cfg tree fs (stemOf p)).fst p with
  | none => simp [create_desktop_file, hrb]
  | some bundle =>
    cases hcs : cfg.createShortcuts with
    | false => simp [create_desktop_file, hrb, hcs, readFS_write, hxd]
    | true =>
      simp only [create_desktop_file, hrb, hcs, if_true]
      rw [validate_mode_ok _ _
        ⟨desktopLines (stemOf p) p (extract_icon cfg tree fs (stemOf p)).snd
            (strTake 8 (md5 bundle.content)) now, (now : Rat), 0o755⟩
        (by rw [readFS_write]; simp) rfl]
      rw [readFS_write, if_neg hxs, readFS_write, if_neg hxd]

/-! ## Claim C4: idempotence of entry creation -/

/-- Claim C4, as stated, is false: `create_desktop_file` records the
current wall-clock time in `X-AppImage-LastUpdate`, while `needs_update`
compares that field against the bundle's modification time, so a bundle
whose mtime is older than one second before the entry write is
immediately reported stale again even though its bytes and mtime never
changed (here mtime `0`, entry written at time `100`). -/
theorem C4_counterexample :
    needs_update (fun _ => "aaaaaaaa")
      (create_desktop_file ⟨"/w", "/apps", "/icons", "/desk", true⟩
        (fun _ => "aaaaaaaa") 100 []
        [("/w/App.AppImage", ⟨["bin"], 0, 0o755⟩)] "/w/App.AppImage")
      "/w/App.AppImage" "/apps/App.desktop" = true := by
  decide

/-- Claim C4 (amended): if the digest function yields nonempty,
`=`-free digests (true of MD5 hexdigests), the bundle is readable and
lies outside the paths the operation itself writes, the creation time is
positive, and the integer creation time is within one second of the
bundle's modification time, then immediately after `create_desktop_file`
the stale check `needs_update` returns false, so a repeated
create-or-update performs no second write. -/
theorem C4_idempotence_amended (cfg : Config) (md5 : List String → String)
    (now : Int) (tree fs : FileSys) (p : String) (bundle : FileData)
    (hm5 : ∀ s, ('=' : Char) ∉ (md5 s).data ∧ ¬md5 s = "")
    (hb : readFS fs p = some bundle)
    (hscr : strStarts squashfs p = false)
    (hpic : ¬p = canonicalIcon cfg (stemOf p))
    (hpd : ¬p = cfg.desktopDir ++ "/" ++ stemOf p ++ ".desktop")
    (hps : ¬p = cfg.shortcutsDir ++ "/" ++ stemOf p ++ ".desktop")
    (hnow : 0 < now)
    (htol : |(now : Rat) - bundle.mtime| ≤ 1) :
    needs_update md5 (create_desktop_file cfg md5 now tree fs p) p
      (cfg.desktopDir ++ "/" ++ stemOf p ++ ".desktop") = false := by
  have hb1 : readFS (extract_icon cfg tree fs (stemOf p)).fst p = some bundle := by
    rw [extract_icon_reads cfg tree fs (stemOf p) p hscr hpic]
    exact hb
  have hdfp := create_writes_entry cfg md5 now tree fs p bundle hb1
  have hp : readFS (create_desktop_file cfg md5 now tree fs p) p = some bundle := by
    rw [create_reads_other cfg md5 now tree fs p p hpd hps]
    exact hb1
  have h8ne : ¬strTake 8 (md5 bundle.content) = "" :=
    strTake8_ne (hm5 bundle.content).2
  have h8eq : ('=' : Char) ∉ (strTake 8 (md5 bundle.content)).data := by
    intro hmem
    exact (hm5 bundle.content).1 (List.take_subset 8 _ hmem)
  have hscan := scanStored_desktopLines (stemOf p) p
    (extract_icon cfg tree fs (stemOf p)).snd (strTake 8 (md5 bundle.content)) now h8eq
  have hmeta : get_appimage_metadata md5 (create_desktop_file cfg md5 now tree fs p) p
      = some ⟨bundle.mtime, strTake 8 (md5 bundle.content)⟩ := by
    simp [get_appimage_metadata, hp]
  have htolf : tolExceeded ((now : Rat)) bundle.mtime = false := by
    cases hte : tolExceeded ((now : Rat)) bundle.mtime with
    | false => rfl
    | true => exact absurd ((tolExceeded_iff _ _).mp hte) (not_lt.mpr htol)
  have hnz : ¬((now : Rat)) = 0 := by
    have h0 : (0 : Rat) < (now : Rat) := by exact_mod_cast hnow
    exact ne_of_gt h0
  simp [needs_update, hdfp, hmeta, hscan, judgeStored, h8ne, hnz, htolf]

/-- Witness for C4 (amended): a bundle touched at time 100 whose entry is
written at time 100 is not stale afterwards. -/
theorem C4_witness :
    needs_update (fun _ => "aaaaaaaa")
      (create_desktop_file ⟨"/w", "/apps", "/icons", "/desk", true⟩
        (fun _ => "aaaaaaaa") 100 []
        [("/w/App.AppImage", ⟨["bin"], 100, 0o755⟩)] "/w/App.AppImage")
      "/w/App.AppImage" "/apps/App.desktop" = false := by
  have h := C4_idempotence_amended ⟨"/w", "/apps", "/icons", "/desk", true⟩
    (fun _ => "aaaaaaaa") 100 [] [("/w/App.AppImage", ⟨["bin"], 100, 0o755⟩)]
    "/w/App.AppImage" ⟨["bin"], 100, 0o755⟩
    (fun _ => by show ('=' : Char) ∉ ("aaaaaaaa" : String).data ∧ ¬("aaaaaaaa" : String) = ""; decide)
    (by decide) (by decide) (by decide) (by decide) (by decide) (by decide)
    (by simp)
  simpa using h

/-! ## Claim C3: event dispatch; Claim C10: the suffix filter;
Claim C7: failure isolation -/

/-- Claim C3: for a pathname with the bundle suffix, a create or
moved-to event writes the launcher entry unconditionally, a modify event
writes it only when `needs_update` holds against the primary entry, and
a delete or moved-from event runs the full orphan sweep. -/
theorem C3_event_dispatch (cfg : Config) (md5 : List String → String) (now : Int)
    (tree fs : FileSys) (p : String) (hp : strEnds ".AppImage" p = true) :
    process_event cfg md5 now tree fs .create p
        = create_desktop_file cfg md5 now tree fs p ∧
    process_event cfg md5 now tree fs .movedTo p
        = create_desktop_file cfg md5 now tree fs p ∧
    process_event cfg md5 now tree fs .modify p
        = (if needs_update md5 fs p (cfg.desktopDir ++ "/" ++ stemOf p ++ ".desktop")
            then create_desktop_file cfg md5 now tree fs p else fs) ∧
    process_event cfg md5 now tree fs .delete p = clean_desktop_files cfg fs ∧
    process_event cfg md5 now tree fs .movedFrom p = clean_desktop_files cfg fs := by
  refine ⟨?_, ?_, ?_, ?_, ?_⟩ <;> simp [process_event, hp]

/-- Witness for C3: the delete handler at a concrete state runs the
full sweep. -/
theorem C3_witness :
    process_event ⟨"/w", "/apps", "/icons", "/desk", true⟩ (fun _ => "aaaaaaaa") 5 []
      [("/w/App.AppImage", ⟨["bin"], 0, 0o755⟩)] .delete "/w/App.AppImage"
      = clean_desktop_files ⟨"/w", "/apps", "/icons", "/desk", true⟩
          [("/w/App.AppImage", ⟨["bin"], 0, 0o755⟩)] :=
  (C3_event_dispatch ⟨"/w", "/apps", "/icons", "/desk", true⟩ (fun _ => "aaaaaaaa") 5 []
    [("/w/App.AppImage", ⟨["bin"], 0, 0o755⟩)] "/w/App.AppImage"
    (by decide)).2.2.2.1

theorem ends_baseName {ext p : String} (h : strEnds ext (baseNameOf p) = true) :
    strEnds ext p = true := by
  unfold strEnds at h ⊢
  unfold baseNameOf baseNameData at h
  rw [data_mk, List.reverse_reverse] at h
  have hsplit : p.data.reverse
      = p.data.reverse.takeWhile (fun c => !(c = '/' : Bool))
        ++ p.data.reverse.dropWhile (fun c => !(c = '/' : Bool)) :=
    (List.takeWhile_append_dropWhile _ _).symm
  rw [hsplit]
  exact listPre_append_left _ h

/-- Claim C10: every event handler ignores a pathname without the exact
case-sensitive `.AppImage` suffix, and the startup scan's glob only
yields files with that suffix. -/
theorem C10_suffix_filter (cfg : Config) (md5 : List String → String) (now : Int)
    (tree fs : FileSys) :
    (∀ (k : EvKind) (p : String), strEnds ".AppImage" p = false →
      process_event cfg md5 now tree fs k p = fs) ∧
    (∀ a ∈ globExt fs cfg.watchDir ".AppImage", strEnds ".AppImage" a = true) := by
  constructor
  · intro k p hp
    simp [process_event, hp]
  · intro a ha
    unfold globExt at ha
    rcases List.mem_filter.mp ha with ⟨_, hcond⟩
    simp only [Bool.and_eq_true] at hcond
    exact ends_baseName hcond.1.2

/-- Witness for C10: a text file in the watch directory triggers no
action on a create event. -/
theorem C10_witness :
    process_event ⟨"/w", "/apps", "/icons", "/desk", true⟩ (fun _ => "aaaaaaaa") 5 []
      [("/w/notes.txt", ⟨["x"], 0, 0o644⟩)] .create "/w/notes.txt"
      = [("/w/notes.txt", ⟨["x"], 0, 0o644⟩)] :=
  (C10_suffix_filter ⟨"/w", "/apps", "/icons", "/desk", true⟩ (fun _ => "aaaaaaaa") 5 []
    [("/w/notes.txt", ⟨["x"], 0, 0o644⟩)]).1 .create "/w/notes.txt" (by decide)

/-- Claim C7: `create_desktop_file` is a total function of the state (no
exception escapes); on any input it either fails softly — the bundle
could not be read back, and the filesystem is exactly what icon
resolution left, with no entry write — or it leaves the rendered primary
entry in place, regardless of the shortcut-validation outcome. -/
theorem C7_no_propagation (cfg : Config) (md5 : List String → String) (now : Int)
    (tree fs : FileSys) (p : String) :
    (create_desktop_file cfg md5 now tree fs p
        = (extract_icon cfg tree fs (stemOf p)).fst ∧
      readFS (extract_icon cfg tree fs (stemOf p)).fst p = none) ∨
    (∃ d, readFS (create_desktop_file cfg md5 now tree fs p)
        (cfg.desktopDir ++ "/" ++ stemOf p ++ ".desktop") = some d) := by
  cases hrb : readFS (extract_icon cfg tree fs (stemOf p)).fst p with
  | none =>
    left
    exact ⟨by simp [create_desktop_file, hrb], rfl⟩
  | some bundle =>
    right
    exact ⟨_, create_writes_entry cfg md5 now tree fs p bundle hrb⟩

/-! ## Claim C6: the scratch directory is gone on return;
Claim C8: failures degrade to the fallback icon -/

theorem readFS_removeScratch_scratch (g : FileSys) (x : String)
    (hx : scratchKey x = true) : readFS (removeScratch g) x = none := by
  induction g with
  | nil => rfl
  | cons e r ih =>
    unfold removeScratch at ih ⊢
    rw [List.filter_cons]
    by_cases hk : scratchKey e.1 = true
    · simp [hk, ih]
    · have hne : ¬e.1 = x := by
        intro h
        rw [h, hx] at hk
        exact hk rfl
      simp [hk, readFS, hne, ih]

theorem existsDir_removeScratch (g : FileSys) :
    existsDirFS (removeScratch g) squashfs = false := by
  unfold existsDirFS
  have h1 : existsFS (removeScratch g) squashfs = false := by
    unfold existsFS
    rw [readFS_removeScratch_scratch g squashfs (by simp [scratchKey])]
    rfl
  have h2 : (removeScratch g).any (fun e => strStarts (squashfs ++ "/") e.1) = false := by
    rw [List.any_eq_false]
    intro e he
    unfold removeScratch at he
    rcases List.mem_filter.mp he with ⟨_, hkeep⟩
    intro hpre
    rw [show scratchKey e.1 = (decide (e.1 = squashfs) || strStarts (squashfs ++ "/") e.1)
      from rfl] at hkeep
    rw [hpre] at hkeep
    simp at hkeep
  simp [h1, h2]

/-- Claim C6: once `extract_icon` proceeds past the existing-icon
short-circuit (no pre-existing icon file), the scratch directory
`squashfs-root` does not exist on the filesystem it returns, on every
exit path. -/
theorem C6_scratch_removed (cfg : Config) (tree fs : FileSys) (app : String)
    (hshort : firstExisting fs (existingIconCands cfg app) = none) :
    existsDirFS (extract_icon cfg tree fs app).fst squashfs = false := by
  by_cases hdir : existsDirFS (writeAllFS fs (scratchDeposit tree)) squashfs = true
  · simp only [extract_icon, hshort, hdir, Bool.not_true, Bool.false_eq_true, if_false]
    exact existsDir_removeScratch _
  · have hdirf := Bool.eq_false_iff.mpr hdir
    simp only [extract_icon, hshort, hdirf, Bool.not_false, if_true]

/-- Witness for C6: with a deposited tree and no pre-existing icon, the
scratch directory is gone from the returned filesystem. -/
theorem C6_witness :
    existsDirFS (extract_icon ⟨"/w", "/apps", "/icons", "/desk", true⟩
      [("AppRun", ⟨["#!"], 0, 0o755⟩)]
      [("/w/App.AppImage", ⟨["bin"], 0, 0o755⟩)] "App").fst squashfs = false :=
  C6_scratch_removed ⟨"/w", "/apps", "/icons", "/desk", true⟩
    [("AppRun", ⟨["#!"], 0, 0o755⟩)]
    [("/w/App.AppImage", ⟨["bin"], 0, 0o755⟩)] "App" (by decide)

/-- Claim C8: past the short-circuit, `extract_icon` returns the
symbolic fallback identifier "application-x-executable" when the
self-extraction produced no output tree, and likewise when the whole
two-pass search found no candidate icon; it never propagates a failure
upward (it is a total function of the modelled state). -/
theorem C8_fallback (cfg : Config) (tree fs : FileSys) (app : String)
    (hshort : firstExisting fs (existingIconCands cfg app) = none) :
    (existsDirFS (writeAllFS fs (scratchDeposit tree)) squashfs = false →
      (extract_icon cfg tree fs app).snd = fallbackIcon) ∧
    ((searchBoth app (canonicalIcon cfg app)
        (writeAllFS fs (scratchDeposit tree))).found = false →
      (extract_icon cfg tree fs app).snd = fallbackIcon) := by
  constructor
  · intro hdir
    simp [extract_icon, hshort, hdir]
  · intro hfound
    by_cases hdir : existsDirFS (writeAllFS fs (scratchDeposit tree)) squashfs = true
    · simp [extract_icon, hshort, hdir, hfound]
    · simp [extract_icon, hshort, Bool.eq_false_iff.mpr hdir]

/-- Witness for C8: extraction that deposits nothing yields the
fallback identifier. -/
theorem C8_witness :
    (extract_icon ⟨"/w", "/apps", "/icons", "/desk", true⟩ []
      [("/w/App.AppImage", ⟨["bin"], 0, 0o755⟩)] "App").snd = fallbackIcon :=
  (C8_fallback ⟨"/w", "/apps", "/icons", "/desk", true⟩ []
    [("/w/App.AppImage", ⟨["bin"], 0, 0o755⟩)] "App" (by decide)).1 (by decide)

/-! ## Claim C5: the resolution loop overwrites earlier matches;
Claim C9: contents of a freshly written entry -/

/-- Claim C5 is contradicted by the code: inside a
resolution-parameterized location the `for res in icon_resolutions`
loop has no `icon_found` break, so with app icons present at both
512x512 and 32x32 the 512x512 file is copied first and then the 32x32
file is examined and copied over it — the canonical icon ends up
holding the lowest-resolution match rather than the first match of the
stated order, while the function still returns the canonical path. -/
theorem C5_resolution_overwrite :
    (readFS (extract_icon ⟨"/w", "/apps", "/icons", "/desk", true⟩
        [("usr/share/icons/hicolor/512x512/apps/App.png", ⟨["HIGH"], 0, 0o644⟩),
         ("usr/share/icons/hicolor/32x32/apps/App.png", ⟨["LOW"], 0, 0o644⟩)]
        [("/w/App.AppImage", ⟨["bin"], 0, 0o755⟩)] "App").fst "/icons/App.png"
      = some ⟨["LOW"], 0, 0o644⟩) ∧
    (extract_icon ⟨"/w", "/apps", "/icons", "/desk", true⟩
        [("usr/share/icons/hicolor/512x512/apps/App.png", ⟨["HIGH"], 0, 0o644⟩),
         ("usr/share/icons/hicolor/32x32/apps/App.png", ⟨["LOW"], 0, 0o644⟩)]
        [("/w/App.AppImage", ⟨["bin"], 0, 0o755⟩)] "App").snd = "/icons/App.png" :=
  ⟨by decide, by decide⟩

/-- The reference the icon resolver returns is the fallback identifier,
a pre-existing icon path, or the canonical icon path. -/
theorem extract_icon_snd_cases (cfg : Config) (tree fs : FileSys) (app : String) :
    (extract_icon cfg tree fs app).snd = fallbackIcon ∨
    (extract_icon cfg tree fs app).snd ∈ existingIconCands cfg app ∨
    (extract_icon cfg tree fs app).snd = canonicalIcon cfg app := by
  cases hfe : firstExisting fs (existingIconCands cfg app) with
  | some q =>
    right; left
    have hq : (extract_icon cfg tree fs app).snd = q := by simp [extract_icon, hfe]
    rw [hq]
    unfold firstExisting at hfe
    exact List.mem_of_find?_eq_some hfe
  | none =>
    by_cases hdir : existsDirFS (writeAllFS fs (scratchDeposit tree)) squashfs = true
    · by_cases hfound : (searchBoth app (canonicalIcon cfg app)
          (writeAllFS fs (scratchDeposit tree))).found = true
      · right; right
        simp [extract_icon, hfe, hdir, hfound]
      · left
        simp [extract_icon, hfe, hdir, Bool.eq_false_iff.mpr hfound]
    · left
      simp [extract_icon, hfe, Bool.eq_false_iff.mpr hdir]

/-- Claim C9: for a readable bundle (outside the resolver's own target
paths), `create_desktop_file` writes `<stem>.desktop` into the primary
launcher directory with mode 0755, containing the `[Desktop Entry]`
header, `Name=<stem>`, `Exec="<bundlePath>" %F`, an `Icon=` line whose
value is a resolved icon path or the symbolic fallback,
`X-AppImage-Path=<bundlePath>`, and `X-AppImage-Hash=` equal to the
first 8 characters of the bundle's content digest. -/
theorem C9_entry_contents (cfg : Config) (md5 : List String → String) (now : Int)
    (tree fs : FileSys) (p : String) (bundle : FileData)
    (hb : readFS fs p = some bundle)
    (hscr : strStarts squashfs p = false)
    (hpic : ¬p = canonicalIcon cfg (stemOf p)) :
    ∃ d, readFS (create_desktop_file cfg md5 now tree fs p)
        (cfg.desktopDir ++ "/" ++ stemOf p ++ ".desktop") = some d
      ∧ d.mode = 0o755
      ∧ "[Desktop Entry]" ∈ d.content
      ∧ ("Name=" ++ stemOf p) ∈ d.content
      ∧ ("Exec=\"" ++ (p ++ "\" %F")) ∈ d.content
      ∧ (∃ icon, ("Icon=" ++ icon) ∈ d.content ∧
          (icon = fallbackIcon ∨ icon ∈ existingIconCands cfg (stemOf p) ∨
            icon = canonicalIcon cfg (stemOf p)))
      ∧ ("X-AppImage-Path=" ++ p) ∈ d.content
      ∧ ("X-AppImage-Hash=" ++ strTake 8 (md5 bundle.content)) ∈ d.content := by
  have hb1 : readFS (extract_icon cfg tree fs (stemOf p)).fst p = some bundle := by
    rw [extract_icon_reads cfg tree fs (stemOf p) p hscr hpic]
    exact hb
  refine ⟨_, create_writes_entry cfg md5 now tree fs p bundle hb1, rfl,
    ?_, ?_, ?_, ?_, ?_, ?_⟩
  · simp [desktopLines]
  · simp [desktopLines]
  · simp [desktopLines]
  · exact ⟨(extract_icon cfg tree fs (stemOf p)).snd, by simp [desktopLines],
      extract_icon_snd_cases cfg tree fs (stemOf p)⟩
  · simp [desktopLines]
  · simp [desktopLines]

/-- Witness for C9: the entry written for `/w/App1.AppImage` exists at
`/apps/App1.desktop` with mode 0755. -/
theorem C9_witness :
    ∃ d, readFS (create_desktop_file ⟨"/w", "/apps", "/icons", "/desk", true⟩
        (fun _ => "aaaaaaaa") 7 [] [("/w/App1.AppImage", ⟨["bin"], 7, 0o755⟩)]
        "/w/App1.AppImage")
      ("/apps" ++ "/" ++ stemOf "/w/App1.AppImage" ++ ".desktop") = some d
      ∧ d.mode = 0o755 := by
  obtain ⟨d, h1, h2, _⟩ := C9_entry_contents ⟨"/w", "/apps", "/icons", "/desk", true⟩
    (fun _ => "aaaaaaaa") 7 [] [("/w/App1.AppImage", ⟨["bin"], 7, 0o755⟩)]
    "/w/App1.AppImage" ⟨["bin"], 7, 0o755⟩ (by decide) (by decide) (by decide)
  exact ⟨d, h1, h2⟩

/-! ## Claim C2: the orphan sweep -/

theorem any_congr {α : Type} {p q : α → Bool} :
    ∀ {l : List α}, (∀ a ∈ l, p a = q a) → l.any p = l.any q := by
  intro l
  induction l with
  | nil => intro _; rfl
  | cons a r ih =>
    intro h
    simp [List.any_cons, h a (by simp), ih (fun b hb => h b (by simp [hb]))]

/-- The sweep's per-file deletion decision holds exactly when some line
records a provenance path that does not exist. -/
theorem delCond_iff (fs : FileSys) (q : String) (d : FileData)
    (hrd : readFS fs q = some d) :
    delCond fs q = true ↔ ∃ line ∈ d.content,
      strStarts "X-AppImage-Path=" line = true ∧
        existsFS fs (lineTarget line) = false := by
  unfold delCond
  rw [hrd]
  constructor
  · intro h
    simp only [Bool.and_eq_true] at h
    rcases List.any_eq_true.mp h.2 with ⟨line, hline, horph⟩
    unfold lineOrphan at horph
    simp only [Bool.and_eq_true] at horph
    refine ⟨line, hline, horph.1, ?_⟩
    simpa using horph.2
  · rintro ⟨line, hline, hs, hex⟩
    simp only [Bool.and_eq_true]
    constructor
    · exact List.any_eq_true.mpr ⟨line, hline, starts_occurs hs⟩
    · refine List.any_eq_true.mpr ⟨line, hline, ?_⟩
      unfold lineOrphan
      rw [hs, hex]
      rfl

theorem readFS_cleanFile_ne (fs : FileSys) (q x : String) (hx : ¬x = q) :
    readFS (cleanFile fs q) x = readFS fs x := by
  unfold cleanFile
  by_cases hc : delCond fs q = true
  · simp [hc, readFS_unlink, hx]
  · simp [hc]

theorem readFS_sweep_not_mem (L : List String) (fs : FileSys) (x : String)
    (hx : x ∉ L) : readFS (L.foldl cleanFile fs) x = readFS fs x := by
  induction L generalizing fs with
  | nil => rfl
  | cons q R ih =>
    rw [List.foldl_cons]
    have hxq : ¬x = q := fun h => hx (by simp [h])
    rw [ih _ (fun hmem => hx (by simp [hmem])), readFS_cleanFile_ne _ _ _ hxq]

theorem existsFS_sweep_not_mem (L : List String) (fs : FileSys) (x : String)
    (hx : x ∉ L) : existsFS (L.foldl cleanFile fs) x = existsFS fs x := by
  unfold existsFS
  rw [readFS_sweep_not_mem L fs x hx]

/-- The deletion decision for `y` only depends on `y`'s own content and
on the existence of the provenance paths its lines record. -/
theorem delCond_congr (fs fs2 : FileSys) (y : String)
    (h1 : readFS fs2 y = readFS fs y)
    (h2 : ∀ d line, readFS fs y = some d → line ∈ d.content →
      strStarts "X-AppImage-Path=" line = true →
      existsFS fs2 (lineTarget line) = existsFS fs (lineTarget line)) :
    delCond fs2 y = delCond fs y := by
  unfold delCond
  rw [h1]
  cases hrd : readFS fs y with
  | none => rfl
  | some d =>
    have hany : d.content.any (fun line => lineOrphan fs2 line)
        = d.content.any (fun line => lineOrphan fs line) := by
      apply any_congr
      intro line hline
      unfold lineOrphan
      by_cases hs : strStarts "X-AppImage-Path=" line = true
      · rw [h2 d line hrd hline hs]
      · rw [Bool.eq_false_iff.mpr hs]
        rfl
    exact congrArg
      (fun b => (d.content.any fun line => occursIn "X-AppImage-Path=" line) && b) hany

/-- Characterization of a whole sweep pass over a duplicate-free list of
files whose recorded provenance targets lie outside the list: a file of
the list is deleted exactly when its deletion condition held at the
start, and is otherwise untouched. -/
theorem sweep_fold (L : List String) (fs : FileSys)
    (hnd : L.Nodup)
    (hT : ∀ q ∈ L, ∀ d line, readFS fs q = some d → line ∈ d.content →
      strStarts "X-AppImage-Path=" line = true → lineTarget line ∉ L) :
    ∀ x ∈ L, readFS (L.foldl cleanFile fs) x
      = if delCond fs x = true then none else readFS fs x := by
  induction L generalizing fs with
  | nil => intro x hx; cases hx
  | cons q R ih =>
    intro x hx
    rw [List.foldl_cons]
    have hndR : R.Nodup := (List.nodup_cons.mp hnd).2
    have hqR : q ∉ R := (List.nodup_cons.mp hnd).1
    have hstep : ∀ y ∈ R, delCond (cleanFile fs q) y = delCond fs y := by
      intro y hy
      have hyq : ¬y = q := fun h => hqR (h ▸ hy)
      apply delCond_congr
      · exact readFS_cleanFile_ne fs q y hyq
      · intro d line hrd hline hs
        have htarget : lineTarget line ∉ q :: R :=
          hT y (by simp [hy]) d line hrd hline hs
        have htq : ¬lineTarget line = q := fun h => htarget (by simp [h])
        unfold existsFS
        rw [readFS_cleanFile_ne fs q _ htq]
    rcases List.mem_cons.mp hx with hxq | hxR
    · subst hxq
      rw [readFS_sweep_not_mem R _ x hqR]
      unfold cleanFile
      by_cases hc : delCond fs x = true
      · simp [hc, readFS_unlink]
      · simp [hc]
    · have hT1 : ∀ y ∈ R, ∀ d line, readFS (cleanFile fs q) y = some d →
          line ∈ d.content → strStarts "X-AppImage-Path=" line = true →
          lineTarget line ∉ R := by
        intro y hy d line hrd hline hs
        have hyq : ¬y = q := fun h => hqR (h ▸ hy)
        rw [readFS_cleanFile_ne fs q y hyq] at hrd
        intro hmem
        exact hT y (by simp [hy]) d line hrd hline hs (by simp [hmem])
      have hres := ih (cleanFile fs q) hndR hT1 x hxR
      rw [hres, hstep x hxR]
      have hxq : ¬x = q := fun h => hqR (h ▸ hxR)
      rw [readFS_cleanFile_ne fs q x hxq]

theorem mem_globExt {fs : FileSys} {dir ext p : String}
    (hp : p ∈ globExt fs dir ext) :
    parentOf p = dir ∧ strEnds ext (baseNameOf p) = true := by
  unfold globExt at hp
  rcases List.mem_filter.mp hp with ⟨_, hc⟩
  simp only [Bool.and_eq_true] at hc
  exact ⟨of_decide_eq_true hc.1.1, hc.1.2⟩

theorem glob_disjoint {fs : FileSys} {d1 d2 ext : String} (hne : ¬d1 = d2) :
    ∀ x ∈ globExt fs d1 ext, x ∉ globExt fs d2 ext := by
  intro x hx1 hx2
  exact hne (((mem_globExt hx1).1).symm.trans (mem_globExt hx2).1)

theorem globExt_nodup {fs : FileSys} (hwf : (keysOf fs).Nodup) (dir ext : String) :
    (globExt fs dir ext).Nodup := hwf.filter _

theorem keysOf_unlink (fs : FileSys) (q : String) :
    keysOf (unlinkFS fs q) = (keysOf fs).filter (fun k => !(k = q : Bool)) := by
  induction fs with
  | nil => rfl
  | cons e r ih =>
    unfold keysOf at ih ⊢
    by_cases he : e.1 = q
    · simp [unlinkFS, he, ih, List.filter_cons]
    · simp [unlinkFS, he, ih, List.filter_cons]

theorem filter_skip_ne {cond : String → Bool} {q : String}
    (hq : cond q = false) :
    ∀ l : List String, (l.filter (fun k => !(k = q : Bool))).filter cond
      = l.filter cond := by
  intro l
  induction l with
  | nil => rfl
  | cons a r ih =>
    by_cases ha : a = q
    · subst ha
      simp [List.filter_cons, hq, ih]
    · simp [List.filter_cons, ha, ih]

/-- A sweep pass over files of one directory leaves any other
directory's glob unchanged. -/
theorem globExt_sweep_parent (L : List String) (fs : FileSys) (dir ext : String)
    (hL : ∀ q ∈ L, ¬parentOf q = dir) :
    globExt (L.foldl cleanFile fs) dir ext = globExt fs dir ext := by
  induction L generalizing fs with
  | nil => rfl
  | cons q R ih =>
    rw [List.foldl_cons, ih _ (fun r hr => hL r (by simp [hr]))]
    unfold cleanFile
    by_cases hc : delCond fs q = true
    · simp only [hc, if_true]
      unfold globExt
      rw [keysOf_unlink]
      apply filter_skip_ne
      have hd : decide (parentOf q = dir) = false :=
        decide_eq_false (hL q (by simp))
      simp [hd]
    · simp [hc]

/-- Claim C2: for every `.desktop` file in the primary launcher
directory or the shortcut directory (with distinct directories,
duplicate-free paths, and recorded provenance targets that are not
themselves swept entries), the orphan sweep deletes the file exactly
when it contains an `X-AppImage-Path` line whose recorded path does not
exist; otherwise — in particular when it has no such field or the path
still exists — the file is left untouched with its content intact. -/
theorem C2_orphan_sweep (cfg : Config) (fs : FileSys) (q : String) (dq : FileData)
    (hwf : (keysOf fs).Nodup)
    (hne : ¬cfg.desktopDir = cfg.shortcutsDir)
    (hq : q ∈ globExt fs cfg.desktopDir ".desktop"
        ++ globExt fs cfg.shortcutsDir ".desktop")
    (hrd : readFS fs q = some dq)
    (hT : ∀ r ∈ globExt fs cfg.desktopDir ".desktop"
        ++ globExt fs cfg.shortcutsDir ".desktop",
      ∀ d line, readFS fs r = some d → line ∈ d.content →
        strStarts "X-AppImage-Path=" line = true →
        lineTarget line ∉ globExt fs cfg.desktopDir ".desktop"
          ++ globExt fs cfg.shortcutsDir ".desktop") :
    (readFS (clean_desktop_files cfg fs) q = none ↔
      ∃ line ∈ dq.content, strStarts "X-AppImage-Path=" line = true ∧
        existsFS fs (lineTarget line) = false) ∧
    ((¬∃ line ∈ dq.content, strStarts "X-AppImage-Path=" line = true ∧
        existsFS fs (lineTarget line) = false) →
      readFS (clean_desktop_files cfg fs) q = some dq) := by
  have hnd1 : (globExt fs cfg.desktopDir ".desktop").Nodup := globExt_nodup hwf _ _
  have hnd2 : (globExt fs cfg.shortcutsDir ".desktop").Nodup := globExt_nodup hwf _ _
  have hdisj1 : ∀ x ∈ globExt fs cfg.desktopDir ".desktop",
      x ∉ globExt fs cfg.shortcutsDir ".desktop" := glob_disjoint hne
  have hdisj2 : ∀ x ∈ globExt fs cfg.shortcutsDir ".desktop",
      x ∉ globExt fs cfg.desktopDir ".desktop" :=
    glob_disjoint (fun h => hne h.symm)
  have hclean : clean_desktop_files cfg fs
      = (globExt ((globExt fs cfg.desktopDir ".desktop").foldl cleanFile fs)
          cfg.shortcutsDir ".desktop").foldl cleanFile
        ((globExt fs cfg.desktopDir ".desktop").foldl cleanFile fs) := rfl
  have hglob2 : globExt ((globExt fs cfg.desktopDir ".desktop").foldl cleanFile fs)
      cfg.shortcutsDir ".desktop" = globExt fs cfg.shortcutsDir ".desktop" := by
    apply globExt_sweep_parent
    intro r hr
    rw [(mem_globExt hr).1]
    exact hne
  have hkey : readFS (clean_desktop_files cfg fs) q
      = if delCond fs q = true then none else some dq := by
    rw [hclean, hglob2]
    rcases List.mem_append.mp hq with hq1 | hq2
    · have hT1 : ∀ r ∈ globExt fs cfg.desktopDir ".desktop", ∀ d line,
          readFS fs r = some d → line ∈ d.content →
          strStarts "X-AppImage-Path=" line = true →
          lineTarget line ∉ globExt fs cfg.desktopDir ".desktop" := by
        intro r hr d line h1 h2 h3 hmem
        exact hT r (List.mem_append_left _ hr) d line h1 h2 h3
          (List.mem_append_left _ hmem)
      have hpass1 := sweep_fold _ fs hnd1 hT1 q hq1
      rw [readFS_sweep_not_mem _ _ _ (hdisj1 q hq1), hpass1, hrd]
    · have hq_not1 : q ∉ globExt fs cfg.desktopDir ".desktop" := hdisj2 q hq2
      have hfs1q : readFS ((globExt fs cfg.desktopDir ".desktop").foldl cleanFile fs) q
          = readFS fs q := readFS_sweep_not_mem _ _ _ hq_not1
      have hcongr : delCond ((globExt fs cfg.desktopDir ".desktop").foldl cleanFile fs) q
          = delCond fs q := by
        apply delCond_congr
        · exact hfs1q
        · intro d line h1 h2 h3
          apply existsFS_sweep_not_mem
          intro hmem
          exact hT q hq d line h1 h2 h3 (List.mem_append_left _ hmem)
      have hT2 : ∀ r ∈ globExt fs cfg.shortcutsDir ".desktop", ∀ d line,
          readFS ((globExt fs cfg.desktopDir ".desktop").foldl cleanFile fs) r = some d →
          line ∈ d.content →
          strStarts "X-AppImage-Path=" line = true →
          lineTarget line ∉ globExt fs cfg.shortcutsDir ".desktop" := by
        intro r hr d line h1 h2 h3 hmem
        rw [readFS_sweep_not_mem _ _ _ (hdisj2 r hr)] at h1
        exact hT r (List.mem_append_right _ hr) d line h1 h2 h3
          (List.mem_append_right _ hmem)
      have hpass2 := sweep_fold _ _ hnd2 hT2 q hq2
      rw [hpass2, hcongr, hfs1q, hrd]
  have hiff := delCond_iff fs q dq hrd
  constructor
  · rw [hkey]
    constructor
    · intro hnone
      by_cases hc : delCond fs q = true
      · exact hiff.mp hc
      · rw [if_neg hc] at hnone
        cases hnone
    · intro hex
      rw [if_pos (hiff.mpr hex)]
  · intro hnex
    rw [hkey, if_neg (fun hc => hnex (hiff.mp hc))]

/-- Filesystem for the C2 witness: one launcher entry whose recorded
bundle no longer exists. -/
def sweepWitnessFS : FileSys :=
  [("/apps/A.desktop", ⟨["X-AppImage-Path=/w/Gone.AppImage"], 0, 0o755⟩)]

def sweepWitnessCfg : Config := ⟨"/w", "/apps", "/icons", "/desk", true⟩

/-- Witness for C2: the entry recording a vanished bundle is deleted. -/
theorem C2_witness :
    readFS (clean_desktop_files sweepWitnessCfg sweepWitnessFS) "/apps/A.desktop"
      = none := by
  have hT : ∀ r ∈ globExt sweepWitnessFS sweepWitnessCfg.desktopDir ".desktop"
      ++ globExt sweepWitnessFS sweepWitnessCfg.shortcutsDir ".desktop",
      ∀ d line, readFS sweepWitnessFS r = some d → line ∈ d.content →
        strStarts "X-AppImage-Path=" line = true →
        lineTarget line ∉ globExt sweepWitnessFS sweepWitnessCfg.desktopDir ".desktop"
          ++ globExt sweepWitnessFS sweepWitnessCfg.shortcutsDir ".desktop" := by
    intro r hr d line h1 h2 h3
    have hglob : globExt sweepWitnessFS sweepWitnessCfg.desktopDir ".desktop"
        ++ globExt sweepWitnessFS sweepWitnessCfg.shortcutsDir ".desktop"
        = ["/apps/A.desktop"] := by decide
    rw [hglob] at hr ⊢
    have hr2 : r = "/apps/A.desktop" := by simpa using hr
    subst hr2
    have hread : readFS sweepWitnessFS "/apps/A.desktop"
        = some ⟨["X-AppImage-Path=/w/Gone.AppImage"], 0, 0o755⟩ := by decide
    rw [hread] at h1
    injection h1 with h1
    subst h1
    have hline : line = "X-AppImage-Path=/w/Gone.AppImage" := by simpa using h2
    subst hline
    decide
  have h := (C2_orphan_sweep sweepWitnessCfg sweepWitnessFS "/apps/A.desktop"
    ⟨["X-AppImage-Path=/w/Gone.AppImage"], 0, 0o755⟩
    (by decide) (by decide) (by decide) (by decide) hT).1
  exact h.mpr ⟨"X-AppImage-Path=/w/Gone.AppImage", by decide, by decide, by decide⟩

end AppImgMon

